import Mathlib

/-!
Verification of the Xline storage core (`src/xline/src/storage/kvstore.rs`):
a shallow embedding of `KvStoreBackend` — the speculative-execution path
(`handle_kv_requests` and friends) and the commit/sync path (`sync_requests`
and friends) — together with models of the `Index` and `DB` collaborators,
which are described in the specification (§4.1 RevisionIndex, §4.2
VersionedStore) but whose source is not part of this snapshot.

Bytes are modelled as `List Nat`, 64-bit signed counters as unbounded `Int`
(no claim here concerns wrap-around behaviour).  Rust panics are modelled as
`Option.none` results; `Result<T, ExecuteError>` becomes `Except Err T`.
-/

/-- A byte string (key or value). -/
abbrev Bytes := List Nat

/-- Lexicographic strict order on byte strings, mirroring `Ord` on `Vec<u8>`. -/
def bytesLt : Bytes → Bytes → Bool
  | [], [] => false
  | [], _ :: _ => true
  | _ :: _, [] => false
  | a :: as, b :: bs => if a < b then true else if b < a then false else bytesLt as bs

/-- Lexicographic non-strict order on byte strings. -/
def bytesLe (a b : Bytes) : Bool := !bytesLt b a

/-- `KeyValue` wire record (protobuf `mvccpb.KeyValue`). -/
structure KeyValue where
  key : Bytes := []
  value : Bytes := []
  create_revision : Int := 0
  mod_revision : Int := 0
  version : Int := 0
  lease : Int := 0
  deriving Repr, DecidableEq

/-- A revision coordinate `(main, sub)`; `main` is the commit revision,
`sub` orders mutations within one committed proposal. -/
structure Revision where
  main : Int
  sub : Int
  deriving Repr, DecidableEq

/-- Event types of a watch event. -/
inductive EventType where
  | put
  | delete
  deriving Repr, DecidableEq

/-- A watch event as emitted by the sync path. -/
structure Event where
  type : EventType := .put
  kv : Option KeyValue := none
  prev_kv : Option KeyValue := none
  deriving Repr, DecidableEq

/-- An index entry for one key: `(create_revision, (main, sub), version)`,
called `KeyRevision` in the source tree. -/
structure KeyRevision where
  create_revision : Int
  main : Int
  sub : Int
  version : Int
  deriving Repr, DecidableEq

/-- A tombstone index entry has `version = 0` and `create_revision = 0` (spec §3). -/
def KeyRevision.isTombstone (e : KeyRevision) : Bool :=
  e.version == 0 && e.create_revision == 0

/-- The coordinate `(main, sub)` of an index entry (`KeyRevision::as_revision`). -/
def KeyRevision.as_revision (e : KeyRevision) : Revision := ⟨e.main, e.sub⟩

/-- Modelled from the spec: the RevisionIndex (`src/xline/src/storage/index.rs`
is not part of this snapshot).  Per key, an append-only sequence of index
entries, represented as an association list. -/
abbrev Index := List (Bytes × List KeyRevision)

/-- History of one key in the index (empty if the key was never written). -/
def Index.lookupKey (idx : Index) (k : Bytes) : List KeyRevision :=
  match idx with
  | [] => []
  | (k', es) :: rest => if k' == k then es else Index.lookupKey rest k

/-- Replace (or create) the history of one key. -/
def Index.setKey (idx : Index) (k : Bytes) (es : List KeyRevision) : Index :=
  match idx with
  | [] => [(k, es)]
  | (k', es') :: rest =>
      if k' == k then (k, es) :: rest else (k', es') :: Index.setKey rest k es

/-- Does `k` fall in the request range `[key, range_end)`?  `range_end = []`
means point lookup on `key`; `key = [0]` with `range_end = [0]` means all keys
(spec §4.1, §6 range-end sentinels). -/
def keyMatches (key range_end k : Bytes) : Bool :=
  if range_end == ([] : Bytes) then k == key
  else if key == [0] && range_end == [0] then true
  else bytesLe key k && bytesLt k range_end

/-- Modelled from the spec: the latest index entry of a key with `main ≤ atRev`
(`atRev = 0` means latest of all), skipping tombstones (spec §4.1 `get`). -/
def Index.getOne (idx : Index) (k : Bytes) (atRev : Int) : Option Revision :=
  let es := Index.lookupKey idx k
  let candidates := if atRev == 0 then es else es.filter (fun e => e.main ≤ atRev)
  match candidates.getLast? with
  | none => none
  | some e => if e.isTombstone then none else some e.as_revision

/-- Modelled from the spec: `RevisionIndex.get(key_start, key_end, at_revision)`
(spec §4.1) — one coordinate per live key in the range, key-ascending. -/
def Index.get (idx : Index) (key range_end : Bytes) (atRev : Int) : List Revision :=
  if range_end == ([] : Bytes) then
    match Index.getOne idx key atRev with
    | some c => [c]
    | none => []
  else
    let ks := ((idx.map Prod.fst).dedup.filter (keyMatches key range_end)).mergeSort bytesLe
    ks.filterMap (fun k => Index.getOne idx k atRev)

/-- Modelled from the spec: `RevisionIndex.insert_or_update(key, main, sub)`
(spec §4.1).  Appends an entry; if there is no prior entry or the prior entry
is a tombstone, `create_revision = main` and `version = 1`, else
`create_revision` inherits and `version = prior.version + 1`;
`mod_revision = main`.  Returns the updated index and the new entry. -/
def Index.insert_or_update_revision (idx : Index) (key : Bytes) (main sub : Int) :
    Index × KeyRevision :=
  let es := Index.lookupKey idx key
  let newEntry :=
    match es.getLast? with
    | none => { create_revision := main, main := main, sub := sub, version := 1 : KeyRevision }
    | some prior =>
        if prior.isTombstone then
          { create_revision := main, main := main, sub := sub, version := 1 }
        else
          { create_revision := prior.create_revision, main := main, sub := sub,
            version := prior.version + 1 }
  (Index.setKey idx key (es ++ [newEntry]), newEntry)

/-- Modelled from the spec: `RevisionIndex.delete(key_start, key_end, main,
sub_start)` (spec §4.1) — for each matching key whose latest entry is live, in
key-ascending order, appends a tombstone entry with incrementing `sub`.  The
spec says it returns "the tombstone coords … for VersionedStore to record
deletion payloads"; coherently with `VersionedStore.mark_deletions` (which
"converts each coord referencing a live kv into a tombstone … and returns the
pre-deletion kvs", spec §4.2), the returned coordinates are those of the live
entries being deleted, in key order. -/
def Index.delete (idx : Index) (key range_end : Bytes) (main sub_start : Int) :
    Index × List Revision :=
  let ks := ((idx.map Prod.fst).dedup.filter (keyMatches key range_end)).mergeSort bytesLe
  let victims := ks.filterMap (fun k => (Index.getOne idx k 0).map (fun c => (k, c)))
  let idx' := victims.enum.foldl
    (fun acc p =>
      Index.setKey acc p.2.1
        (Index.lookupKey acc p.2.1 ++
          [{ create_revision := 0, main := main, sub := sub_start + (p.1 : Int),
             version := 0 : KeyRevision }]))
    idx
  (idx', victims.map Prod.snd)

/-- Modelled from the spec: the VersionedStore (`src/xline/src/storage/db.rs`
is not part of this snapshot) — a mapping from revision coordinates to
`KeyValue` payloads, as an association list. -/
abbrev DB := List (Revision × KeyValue)

/-- Payload stored at a coordinate, if any. -/
def DB.lookup (db : DB) (r : Revision) : Option KeyValue :=
  match db with
  | [] => none
  | (r', kv) :: rest => if r' == r then some kv else DB.lookup rest r

/-- Modelled from the spec: `VersionedStore.insert(coord, kv)` (spec §4.2). -/
def DB.insert (db : DB) (r : Revision) (kv : KeyValue) : DB :=
  match db with
  | [] => [(r, kv)]
  | (r', kv') :: rest =>
      if r' == r then (r, kv) :: rest else (r', kv') :: DB.insert rest r kv

/-- Modelled from the spec: `VersionedStore.get_values([coords])` (spec §4.2)
— order-preserving batch fetch, unknown coordinates skipped silently. -/
def DB.get_values (db : DB) (coords : List Revision) : List KeyValue :=
  coords.filterMap (DB.lookup db)

/-- The tombstone payload replacing a deleted kv: `version = 0`,
`create_revision = 0`, `mod_revision` preserved (spec §4.2). -/
def tombstoneOf (kv : KeyValue) : KeyValue :=
  { key := kv.key, value := [], create_revision := 0,
    mod_revision := kv.mod_revision, version := 0, lease := 0 }

/-- Modelled from the spec: `VersionedStore.mark_deletions([coords])` (spec
§4.2) — converts each coordinate referencing a live kv into a tombstone and
returns the pre-deletion kvs, preserving input order. -/
def DB.mark_deletions (db : DB) (coords : List Revision) : DB × List KeyValue :=
  match coords with
  | [] => (db, [])
  | c :: rest =>
      match DB.lookup db c with
      | some kv =>
          if kv.version == 0 then DB.mark_deletions db rest
          else
            let res := DB.mark_deletions (DB.insert db c (tombstoneOf kv)) rest
            (res.1, kv :: res.2)
      | none => DB.mark_deletions db rest

/-- `CompareResult` of the RPC layer (`Equal`, `Greater`, `Less`, `NotEqual`). -/
inductive CompareResult where
  | equal
  | greater
  | less
  | notEqual
  deriving Repr, DecidableEq

/-- `CompareTarget` of the RPC layer. -/
inductive CompareTarget where
  | version
  | create
  | mod
  | value
  | lease
  deriving Repr, DecidableEq

/-- The `target_union` operand of a `Compare`. -/
inductive TargetUnion where
  | version (v : Int)
  | createRevision (v : Int)
  | modRevision (v : Int)
  | value (v : Bytes)
  | lease (v : Int)
  deriving Repr, DecidableEq

/-- A `Compare` predicate of a transaction. -/
structure Compare where
  result : CompareResult := .equal
  target : CompareTarget := .version
  key : Bytes := []
  range_end : Bytes := []
  target_union : Option TargetUnion := none
  deriving Repr, DecidableEq

/-- Sort target of a `RangeRequest`. -/
inductive SortTarget where
  | key
  | version
  | create
  | mod
  | value
  deriving Repr, DecidableEq

/-- Sort order of a `RangeRequest`. -/
inductive SortOrder where
  | none
  | ascend
  | descend
  deriving Repr, DecidableEq

/-- `RangeRequest` wire record. -/
structure RangeRequest where
  key : Bytes := []
  range_end : Bytes := []
  revision : Int := 0
  limit : Int := 0
  count_only : Bool := false
  sort_target : SortTarget := .key
  sort_order : SortOrder := .none
  deriving Repr, DecidableEq

/-- `PutRequest` wire record. -/
structure PutRequest where
  key : Bytes := []
  value : Bytes := []
  lease : Int := 0
  prev_kv : Bool := false
  ignore_value : Bool := false
  ignore_lease : Bool := false
  deriving Repr, DecidableEq

/-- `DeleteRangeRequest` wire record. -/
structure DeleteRangeRequest where
  key : Bytes := []
  range_end : Bytes := []
  prev_kv : Bool := false
  deriving Repr, DecidableEq

/-- `RequestWrapper`: the tagged union of KV requests handled by the store.
A `txn` carries its compares and the success/failure branches, whose elements
are again requests (`RequestOp` in the wire shape). -/
inductive RequestWrapper where
  | range (req : RangeRequest)
  | put (req : PutRequest)
  | deleteRange (req : DeleteRangeRequest)
  | txn (compare : List Compare) (success : List RequestWrapper)
      (failure : List RequestWrapper)

/-- Is this wrapper a transaction? -/
def RequestWrapper.isTxn : RequestWrapper → Bool
  | .txn _ _ _ => true
  | _ => false

/-- `RangeResponse` (headers are vended by `HeaderGenerator` and out of scope). -/
structure RangeResponse where
  kvs : List KeyValue := []
  more : Bool := false
  count : Int := 0
  deriving Repr, DecidableEq

/-- `PutResponse`. -/
structure PutResponse where
  prev_kv : Option KeyValue := none
  deriving Repr, DecidableEq

/-- `DeleteRangeResponse`. -/
structure DeleteRangeResponse where
  deleted : Int := 0
  prev_kvs : List KeyValue := []
  deriving Repr, DecidableEq

/-- `ResponseWrapper`: tagged union of KV responses; a `txn` response carries
`succeeded` and the branch responses. -/
inductive ResponseWrapper where
  | range (resp : RangeResponse)
  | put (resp : PutResponse)
  | deleteRange (resp : DeleteRangeResponse)
  | txn (succeeded : Bool) (responses : List ResponseWrapper)

/-- `ExecuteError` of the curp layer, as surfaced by the store. -/
inductive Err where
  | invalidCommand (msg : String)
  deriving Repr, DecidableEq

/-- A proposal id (`ProposeId`), opaque at this layer. -/
abbrev ProposeId := Nat

/-- The speculative execution pool: proposal id ↦ buffered requests
(`sp_exec_pool`, a `HashMap<ProposeId, Vec<RequestWrapper>>` in the source;
iteration order is never used, so an association list is faithful). -/
abbrev Pool := List (ProposeId × List RequestWrapper)

/-- Buffered requests of a proposal, if the proposal is known to the pool. -/
def Pool.lookup (p : Pool) (id : ProposeId) : Option (List RequestWrapper) :=
  match p with
  | [] => none
  | (i, l) :: rest => if i == id then some l else Pool.lookup rest id

/-- `sp_exec_pool.entry(id).and_modify(|req| req.push(w)).or_insert(vec![w])`. -/
def Pool.append (p : Pool) (id : ProposeId) (w : RequestWrapper) : Pool :=
  match p with
  | [] => [(id, [w])]
  | (i, l) :: rest =>
      if i == id then (i, l ++ [w]) :: rest else (i, l) :: Pool.append rest id w

/-- `sp_exec_pool.entry(id).or_insert(vec![])` — ensure an (empty) entry. -/
def Pool.init (p : Pool) (id : ProposeId) : Pool :=
  match p with
  | [] => [(id, [])]
  | (i, l) :: rest =>
      if i == id then (i, l) :: rest else (i, l) :: Pool.init rest id

/-- `sp_exec_pool.remove(id)` — the removed list (if any) and the rest. -/
def Pool.remove (p : Pool) (id : ProposeId) : Option (List RequestWrapper) × Pool :=
  match p with
  | [] => (none, [])
  | (i, l) :: rest =>
      if i == id then (some l, rest)
      else
        let res := Pool.remove rest id
        (res.1, (i, l) :: res.2)

/-- The mutable state of `KvStoreBackend`: the key index, the value store,
the engine-wide revision counter, and the speculative execution pool. -/
structure State where
  index : Index
  db : DB
  revision : Int
  sp_exec_pool : Pool

/-- `KvStoreBackend::get_range` — coordinates from the index, payloads from
the store. -/
def get_range (s : State) (key range_end : Bytes) (revision : Int) : List KeyValue :=
  let revisions := Index.get s.index key range_end revision
  DB.get_values s.db revisions

/-- `KvStoreBackend::compare_i64`. -/
def compare_i64 (val target : Int) : CompareResult :=
  if target < val then .greater
  else if val < target then .less
  else .equal

/-- `KvStoreBackend::compare_vec_u8`. -/
def compare_vec_u8 (val target : Bytes) : CompareResult :=
  if bytesLt target val then .greater
  else if bytesLt val target then .less
  else .equal

/-- The `let result = match cmp.target() { … }` part of
`KvStoreBackend::compare_kv`: which `CompareResult` the selected field of
`kv` yields against the operand (a missing or mismatched `target_union`
contributes the default operand). -/
def compare_result_of (cmp : Compare) (kv : KeyValue) : CompareResult :=
  match cmp.target with
  | .version =>
      let rev := match cmp.target_union with
        | some (.version v) => v
        | _ => 0
      compare_i64 kv.version rev
  | .create =>
      let rev := match cmp.target_union with
        | some (.createRevision v) => v
        | _ => 0
      compare_i64 kv.create_revision rev
  | .mod =>
      let rev := match cmp.target_union with
        | some (.modRevision v) => v
        | _ => 0
      compare_i64 kv.mod_revision rev
  | .value =>
      let val := match cmp.target_union with
        | some (.value v) => v
        | _ => []
      compare_vec_u8 kv.value val
  | .lease =>
      let les := match cmp.target_union with
        | some (.lease v) => v
        | _ => 0
      compare_i64 kv.mod_revision les

/-- `KvStoreBackend::compare_kv` — does the comparison outcome match the
requested `CompareResult`? -/
def compare_kv (cmp : Compare) (kv : KeyValue) : Bool :=
  let result := compare_result_of cmp kv
  match cmp.result with
  | .equal => result == .equal
  | .greater => result == .greater
  | .less => result == .less
  | .notEqual => result != .equal

/-- Does the `target_union` hold a `Value` operand?  (`check_compare` keys its
empty-range exception on this, not on `cmp.target`.) -/
def is_value_union : Option TargetUnion → Bool
  | some (.value _) => true
  | _ => false

/-- `KvStoreBackend::check_compare` — evaluate one `Compare` against the
current state. -/
def check_compare (s : State) (cmp : Compare) : Bool :=
  let kvs := get_range s cmp.key cmp.range_end 0
  if kvs.isEmpty then
    if is_value_union cmp.target_union then false
    else compare_kv cmp { : KeyValue }
  else
    kvs.all (compare_kv cmp)

/-- `KvStoreBackend::handle_range_request` — read-only range query with
sorting and limit handling. -/
def handle_range_request (s : State) (req : RangeRequest) : RangeResponse :=
  let kvs := get_range s req.key req.range_end req.revision
  let response : RangeResponse := { count := (kvs.length : Int) }
  if req.count_only then response
  else
    let kvs :=
      match req.sort_target, req.sort_order with
      | .key, .none => kvs
      | .key, .ascend => kvs.mergeSort (fun a b => bytesLe a.key b.key)
      | .key, .descend => kvs.mergeSort (fun a b => bytesLe b.key a.key)
      | .version, .ascend | .version, .none =>
          kvs.mergeSort (fun a b => decide (a.version ≤ b.version))
      | .version, .descend => kvs.mergeSort (fun a b => decide (b.version ≤ a.version))
      | .create, .ascend | .create, .none =>
          kvs.mergeSort (fun a b => decide (a.create_revision ≤ b.create_revision))
      | .create, .descend =>
          kvs.mergeSort (fun a b => decide (b.create_revision ≤ a.create_revision))
      | .mod, .ascend | .mod, .none =>
          kvs.mergeSort (fun a b => decide (a.mod_revision ≤ b.mod_revision))
      | .mod, .descend => kvs.mergeSort (fun a b => decide (b.mod_revision ≤ a.mod_revision))
      | .value, .ascend | .value, .none => kvs.mergeSort (fun a b => bytesLe a.value b.value)
      | .value, .descend => kvs.mergeSort (fun a b => bytesLe b.value a.value)
    if req.limit > 0 ∧ (kvs.length : Int) > req.limit then
      { response with more := true, kvs := kvs.take req.limit.toNat }
    else
      { response with kvs := kvs }

/-- The error message of the `ignore_lease`/`ignore_value` precondition. -/
def ignoreMsg : String :=
  "ignore_lease or ignore_value is set but there is no previous value"

/-- The previous-value selection of `KvStoreBackend::handle_put_request`
(lines 295–304): one kv → that kv, none → no previous value, more than one →
panic (`none`). -/
def put_prev_of : List KeyValue → Option (Option KeyValue)
  | [] => some none
  | [kv] => some (some kv)
  | _ :: _ :: _ => none

/-- `KvStoreBackend::handle_put_request` — speculative Put.  The outer
`Option` is `none` on panic (point lookup yielding more than one kv). -/
def handle_put_request (s : State) (req : PutRequest) :
    Option (Except Err PutResponse) :=
  match put_prev_of (get_range s req.key [] 0) with
  | none => none
  | some prev =>
      if prev.isNone && (req.ignore_lease || req.ignore_value) then
        some (.error (.invalidCommand ignoreMsg))
      else
        some (.ok { prev_kv := if req.prev_kv then prev else none })

/-- `KvStoreBackend::handle_delete_range_request` — speculative DeleteRange. -/
def handle_delete_range_request (s : State) (req : DeleteRangeRequest) :
    DeleteRangeResponse :=
  let prev_kvs := get_range s req.key req.range_end 0
  let response : DeleteRangeResponse := { deleted := (prev_kvs.length : Int) }
  if req.prev_kv then { response with prev_kvs := prev_kvs } else response

mutual

/-- `KvStoreBackend::handle_kv_requests` — the speculative execution path.
First registers the request in `sp_exec_pool` (a `txn` only ensures an entry;
any other request is appended), then computes the speculative response.
Returns the updated state together with the `Result`; `none` models a panic. -/
def handle_kv_requests (s : State) (id : ProposeId) (w : RequestWrapper) :
    Option (State × Except Err ResponseWrapper) :=
  match w with
  | .range req =>
      let s1 := { s with sp_exec_pool := Pool.append s.sp_exec_pool id w }
      some (s1, .ok (.range (handle_range_request s1 req)))
  | .put req =>
      let s1 := { s with sp_exec_pool := Pool.append s.sp_exec_pool id w }
      match handle_put_request s1 req with
      | none => none
      | some (.error e) => some (s1, .error e)
      | some (.ok resp) => some (s1, .ok (.put resp))
  | .deleteRange req =>
      let s1 := { s with sp_exec_pool := Pool.append s.sp_exec_pool id w }
      some (s1, .ok (.deleteRange (handle_delete_range_request s1 req)))
  | .txn cmps succ fail =>
      let s1 := { s with sp_exec_pool := Pool.init s.sp_exec_pool id }
      let success := cmps.all (check_compare s1)
      if success then
        match handle_req_list s1 id succ with
        | none => none
        | some (s2, .error e) => some (s2, .error e)
        | some (s2, .ok resps) => some (s2, .ok (.txn true resps))
      else
        match handle_req_list s1 id fail with
        | none => none
        | some (s2, .error e) => some (s2, .error e)
        | some (s2, .ok resps) => some (s2, .ok (.txn false resps))

/-- The `for request_op in requests` loop of
`KvStoreBackend::handle_txn_request`: execute the chosen branch's requests in
order through `handle_kv_requests`; an error stops the loop but keeps the
state mutations made so far (as `?` does on `&self` methods). -/
def handle_req_list (s : State) (id : ProposeId) (reqs : List RequestWrapper) :
    Option (State × Except Err (List ResponseWrapper)) :=
  match reqs with
  | [] => some (s, .ok [])
  | r :: rest =>
      match handle_kv_requests s id r with
      | none => none
      | some (s1, .error e) => some (s1, .error e)
      | some (s1, .ok resp) =>
          match handle_req_list s1 id rest with
          | none => none
          | some (s2, .error e) => some (s2, .error e)
          | some (s2, .ok resps) => some (s2, .ok (resp :: resps))

end

/-- `KvStoreBackend::sync_range_request` — a Range emits no events. -/
def sync_range_request (_req : RangeRequest) : List Event :=
  []

/-- `KvStoreBackend::sync_put_request` — apply a buffered Put at
`(revision, sub_revision)`.  Re-checks the `ignore_lease`/`ignore_value`
precondition and applies nothing if it fails. -/
def sync_put_request (s : State) (req : PutRequest) (revision sub_revision : Int) :
    State × List Event :=
  let prev_kv := (get_range s req.key [] 0).head?
  if prev_kv.isNone && (req.ignore_lease || req.ignore_value) then
    (s, [])
  else
    let res := Index.insert_or_update_revision s.index req.key revision sub_revision
    let new_rev := res.2
    let kv : KeyValue :=
      { key := req.key, value := req.value, create_revision := new_rev.create_revision,
        mod_revision := new_rev.main, version := new_rev.version, lease := req.lease }
    let kv :=
      if req.ignore_lease || req.ignore_value then
        match prev_kv with
        | some prev =>
            { kv with
              lease := if req.ignore_lease then prev.lease else kv.lease,
              value := if req.ignore_value then prev.value else kv.value }
        | none => kv
      else kv
    let db' := DB.insert s.db new_rev.as_revision kv
    let event : Event := { type := .put, kv := some kv, prev_kv := prev_kv }
    ({ s with index := res.1, db := db' }, [event])

/-- `KvStoreBackend::new_deletion_events` — one Delete event per pre-deletion
kv; the event's `kv` carries only the key and the commit revision. -/
def new_deletion_events (revision : Int) (prev_kvs : List KeyValue) : List Event :=
  prev_kvs.map (fun prev =>
    let kv : KeyValue := { key := prev.key, mod_revision := revision }
    { type := .delete, kv := some kv, prev_kv := some prev })

/-- `KvStoreBackend::sync_delete_range_request` — apply a buffered
DeleteRange: tombstone the index, mark deletions in the store, and build the
Delete events. -/
def sync_delete_range_request (s : State) (req : DeleteRangeRequest)
    (revision sub_revision : Int) : State × List Event :=
  let res := Index.delete s.index req.key req.range_end revision sub_revision
  let marked := DB.mark_deletions s.db res.2
  ({ s with index := res.1, db := marked.1 }, new_deletion_events revision marked.2)

/-- `KvStoreBackend::sync_request` — apply one buffered request; a `txn` in
the pool is impossible and panics (`none`). -/
def sync_request (s : State) (w : RequestWrapper) (revision sub_revision : Int) :
    Option (State × List Event) :=
  match w with
  | .range req => some (s, sync_range_request req)
  | .put req => some (sync_put_request s req revision sub_revision)
  | .deleteRange req => some (sync_delete_range_request s req revision sub_revision)
  | .txn _ _ _ => none

/-- The `for request in requests` loop of `KvStoreBackend::sync_requests`:
apply the buffered requests in order, advancing `sub_revision` by the number
of events each request emitted, and concatenate the events. -/
def sync_reqs_loop (s : State) (reqs : List RequestWrapper)
    (next_revision sub_revision : Int) : Option (State × List Event) :=
  match reqs with
  | [] => some (s, [])
  | r :: rest =>
      match sync_request s r next_revision sub_revision with
      | none => none
      | some (s1, events) =>
          match sync_reqs_loop s1 rest next_revision
              (sub_revision + (events.length : Int)) with
          | none => none
          | some (s2, evs2) => some (s2, events ++ evs2)

/-- `KvStoreBackend::sync_requests` — commit one proposal's buffered requests.
`modify` in the source is the disjunction of per-request event non-emptiness,
i.e. exactly non-emptiness of the concatenated event list.  Advances the
revision counter iff some event was produced, and returns the (possibly
unchanged) revision and the events (if any). -/
def sync_requests (s : State) (requests : List RequestWrapper) :
    Option (State × Int × Option (List Event)) :=
  let revision := s.revision
  let next_revision := revision + 1
  match sync_reqs_loop s requests next_revision 0 with
  | none => none
  | some (s1, all_events) =>
      if all_events.isEmpty then some (s1, revision, none)
      else some ({ s1 with revision := next_revision }, next_revision, some all_events)

/-- `KvStoreBackend::sync_cmd` — commit a proposal: drain its pool entry (a
missing entry panics) and sync the buffered requests. -/
def sync_cmd (s : State) (id : ProposeId) : Option (State × Int × Option (List Event)) :=
  match Pool.remove s.sp_exec_pool id with
  | (none, _) => none
  | (some requests, pool') =>
      sync_requests { s with sp_exec_pool := pool' } requests

/-- Commit a sequence of proposals (each a list of buffered requests) and
count how many of them produced at least one event. -/
def commit_seq (s : State) (proposals : List (List RequestWrapper)) :
    Option (State × Nat) :=
  match proposals with
  | [] => some (s, 0)
  | p :: rest =>
      match sync_requests s p with
      | none => none
      | some (s', _, evOpt) =>
          match commit_seq s' rest with
          | none => none
          | some (s'', n) => some (s'', (if evOpt.isSome then 1 else 0) + n)

mutual

theorem aux_handle_frame (s : State) (id : ProposeId) (w : RequestWrapper) (s' : State)
    (r : Except Err ResponseWrapper) (h : handle_kv_requests s id w = some (s', r)) :
    s'.index = s.index ∧ s'.db = s.db ∧ s'.revision = s.revision := by
  cases w with
  | range req =>
    simp only [handle_kv_requests, Option.some.injEq, Prod.mk.injEq] at h
    obtain ⟨hs, _⟩ := h
    subst hs
    exact ⟨rfl, rfl, rfl⟩
  | put req =>
    simp only [handle_kv_requests] at h
    split at h
    · exact absurd h (by simp)
    · simp only [Option.some.injEq, Prod.mk.injEq] at h
      obtain ⟨hs, _⟩ := h
      subst hs
      exact ⟨rfl, rfl, rfl⟩
    · simp only [Option.some.injEq, Prod.mk.injEq] at h
      obtain ⟨hs, _⟩ := h
      subst hs
      exact ⟨rfl, rfl, rfl⟩
  | deleteRange req =>
    simp only [handle_kv_requests, Option.some.injEq, Prod.mk.injEq] at h
    obtain ⟨hs, _⟩ := h
    subst hs
    exact ⟨rfl, rfl, rfl⟩
  | txn cmps succ fail =>
    simp only [handle_kv_requests] at h
    split at h
    · split at h
      · exact absurd h (by simp)
      · rename_i s2 e heq
        simp only [Option.some.injEq, Prod.mk.injEq] at h
        obtain ⟨hs, _⟩ := h
        subst hs
        have h2 := aux_list_frame _ id succ _ _ heq
        exact h2
      · rename_i s2 resps heq
        simp only [Option.some.injEq, Prod.mk.injEq] at h
        obtain ⟨hs, _⟩ := h
        subst hs
        have h2 := aux_list_frame _ id succ _ _ heq
        exact h2
    · split at h
      · exact absurd h (by simp)
      · rename_i s2 e heq
        simp only [Option.some.injEq, Prod.mk.injEq] at h
        obtain ⟨hs, _⟩ := h
        subst hs
        have h2 := aux_list_frame _ id fail _ _ heq
        exact h2
      · rename_i s2 resps heq
        simp only [Option.some.injEq, Prod.mk.injEq] at h
        obtain ⟨hs, _⟩ := h
        subst hs
        have h2 := aux_list_frame _ id fail _ _ heq
        exact h2

theorem aux_list_frame (s : State) (id : ProposeId) (reqs : List RequestWrapper) (s' : State)
    (r : Except Err (List ResponseWrapper)) (h : handle_req_list s id reqs = some (s', r)) :
    s'.index = s.index ∧ s'.db = s.db ∧ s'.revision = s.revision := by
  cases reqs with
  | nil =>
    simp only [handle_req_list, Option.some.injEq, Prod.mk.injEq] at h
    obtain ⟨hs, _⟩ := h
    subst hs
    exact ⟨rfl, rfl, rfl⟩
  | cons q rest =>
    simp only [handle_req_list] at h
    split at h
    · exact absurd h (by simp)
    · rename_i s1 e heq
      simp only [Option.some.injEq, Prod.mk.injEq] at h
      obtain ⟨hs, _⟩ := h
      subst hs
      exact aux_handle_frame s id q _ _ heq
    · rename_i s1 resp heq
      split at h
      · exact absurd h (by simp)
      · rename_i s2 e heq2
        simp only [Option.some.injEq, Prod.mk.injEq] at h
        obtain ⟨hs, _⟩ := h
        subst hs
        have h1 := aux_handle_frame s id q _ _ heq
        have h2 := aux_list_frame s1 id rest _ _ heq2
        exact ⟨h2.1.trans h1.1, h2.2.1.trans h1.2.1, h2.2.2.trans h1.2.2⟩
      · rename_i s2 resps heq2
        simp only [Option.some.injEq, Prod.mk.injEq] at h
        obtain ⟨hs, _⟩ := h
        subst hs
        have h1 := aux_handle_frame s id q _ _ heq
        have h2 := aux_list_frame s1 id rest _ _ heq2
        exact ⟨h2.1.trans h1.1, h2.2.1.trans h1.2.1, h2.2.2.trans h1.2.2⟩

end

/-- C2: speculative execution (`handle_kv_requests`) never mutates the
revision index, the value store, or the revision counter; after it returns
(whether with a response or an error), the index, the store and the revision
equal their values before the call, for Range, Put, DeleteRange and Txn
requests alike. -/
theorem speculative_exec_preserves_state (s : State) (id : ProposeId)
    (w : RequestWrapper) (s' : State) (r : Except Err ResponseWrapper)
    (h : handle_kv_requests s id w = some (s', r)) :
    s'.index = s.index ∧ s'.revision = s.revision ∧ s'.db = s.db :=
  ⟨(aux_handle_frame s id w s' r h).1, (aux_handle_frame s id w s' r h).2.2,
    (aux_handle_frame s id w s' r h).2.1⟩

/-- Witness for C2: a concrete Range execution on the empty store leaves
index, store and revision untouched. -/
theorem speculative_exec_preserves_state_witness :
    handle_kv_requests { index := [], db := [], revision := 1, sp_exec_pool := [] } 0
        (RequestWrapper.range {}) =
      some ({ index := [], db := [], revision := 1,
              sp_exec_pool := [(0, [RequestWrapper.range {}])] },
            Except.ok (ResponseWrapper.range { count := 0 })) ∧
    (({ index := [], db := [], revision := 1,
        sp_exec_pool := [(0, [RequestWrapper.range {}])] } : State).index =
        ({ index := [], db := [], revision := 1, sp_exec_pool := [] } : State).index ∧
      ({ index := [], db := [], revision := 1,
          sp_exec_pool := [(0, [RequestWrapper.range {}])] } : State).revision =
        ({ index := [], db := [], revision := 1, sp_exec_pool := [] } : State).revision ∧
      ({ index := [], db := [], revision := 1,
          sp_exec_pool := [(0, [RequestWrapper.range {}])] } : State).db =
        ({ index := [], db := [], revision := 1, sp_exec_pool := [] } : State).db) :=
  ⟨rfl, speculative_exec_preserves_state _ 0 (RequestWrapper.range {}) _ _ rfl⟩

/-- No transaction wrapper is buffered anywhere in a pool. -/
def PoolNoTxn (p : Pool) : Prop :=
  ∀ e ∈ p, ∀ w ∈ e.2, w.isTxn = false

theorem poolNoTxn_tail {hd : ProposeId × List RequestWrapper} {tl : Pool}
    (h : PoolNoTxn (hd :: tl)) : PoolNoTxn tl :=
  fun e he => h e (List.mem_cons_of_mem hd he)

theorem pool_append_noTxn (p : Pool) (id : ProposeId) (w : RequestWrapper)
    (hp : PoolNoTxn p) (hw : w.isTxn = false) : PoolNoTxn (Pool.append p id w) := by
  induction p with
  | nil =>
    intro e he w' hw'
    simp only [Pool.append, List.mem_singleton] at he
    subst he
    simp only [List.mem_singleton] at hw'
    subst hw'
    exact hw
  | cons hd tl ih =>
    obtain ⟨i, l⟩ := hd
    simp only [Pool.append]
    split
    · intro e he w' hw'
      rcases List.mem_cons.mp he with he | he
      · subst he
        rcases List.mem_append.mp hw' with hw' | hw'
        · exact hp (i, l) (List.mem_cons_self _ _) w' hw'
        · simp only [List.mem_singleton] at hw'
          subst hw'
          exact hw
      · exact hp e (List.mem_cons_of_mem _ he) w' hw'
    · intro e he w' hw'
      rcases List.mem_cons.mp he with he | he
      · subst he
        exact hp (i, l) (List.mem_cons_self _ _) w' hw'
      · exact ih (poolNoTxn_tail hp) e he w' hw'

theorem pool_init_noTxn (p : Pool) (id : ProposeId)
    (hp : PoolNoTxn p) : PoolNoTxn (Pool.init p id) := by
  induction p with
  | nil =>
    intro e he w' hw'
    simp only [Pool.init, List.mem_singleton] at he
    subst he
    simp at hw'
  | cons hd tl ih =>
    obtain ⟨i, l⟩ := hd
    simp only [Pool.init]
    split
    · exact hp
    · intro e he w' hw'
      rcases List.mem_cons.mp he with he | he
      · subst he
        exact hp (i, l) (List.mem_cons_self _ _) w' hw'
      · exact ih (poolNoTxn_tail hp) e he w' hw'

mutual

theorem aux_handle_noTxn (s : State) (id : ProposeId) (w : RequestWrapper) (s' : State)
    (r : Except Err ResponseWrapper) (h : handle_kv_requests s id w = some (s', r))
    (hp : PoolNoTxn s.sp_exec_pool) : PoolNoTxn s'.sp_exec_pool := by
  cases w with
  | range req =>
    simp only [handle_kv_requests, Option.some.injEq, Prod.mk.injEq] at h
    obtain ⟨hs, _⟩ := h
    subst hs
    exact pool_append_noTxn _ id _ hp rfl
  | put req =>
    simp only [handle_kv_requests] at h
    split at h
    · exact absurd h (by simp)
    · simp only [Option.some.injEq, Prod.mk.injEq] at h
      obtain ⟨hs, _⟩ := h
      subst hs
      exact pool_append_noTxn _ id _ hp rfl
    · simp only [Option.some.injEq, Prod.mk.injEq] at h
      obtain ⟨hs, _⟩ := h
      subst hs
      exact pool_append_noTxn _ id _ hp rfl
  | deleteRange req =>
    simp only [handle_kv_requests, Option.some.injEq, Prod.mk.injEq] at h
    obtain ⟨hs, _⟩ := h
    subst hs
    exact pool_append_noTxn _ id _ hp rfl
  | txn cmps succ fail =>
    simp only [handle_kv_requests] at h
    split at h
    · split at h
      · exact absurd h (by simp)
      · rename_i s2 e heq
        simp only [Option.some.injEq, Prod.mk.injEq] at h
        obtain ⟨hs, _⟩ := h
        subst hs
        exact aux_list_noTxn _ id succ _ _ heq (pool_init_noTxn _ id hp)
      · rename_i s2 resps heq
        simp only [Option.some.injEq, Prod.mk.injEq] at h
        obtain ⟨hs, _⟩ := h
        subst hs
        exact aux_list_noTxn _ id succ _ _ heq (pool_init_noTxn _ id hp)
    · split at h
      · exact absurd h (by simp)
      · rename_i s2 e heq
        simp only [Option.some.injEq, Prod.mk.injEq] at h
        obtain ⟨hs, _⟩ := h
        subst hs
        exact aux_list_noTxn _ id fail _ _ heq (pool_init_noTxn _ id hp)
      · rename_i s2 resps heq
        simp only [Option.some.injEq, Prod.mk.injEq] at h
        obtain ⟨hs, _⟩ := h
        subst hs
        exact aux_list_noTxn _ id fail _ _ heq (pool_init_noTxn _ id hp)

theorem aux_list_noTxn (s : State) (id : ProposeId) (reqs : List RequestWrapper) (s' : State)
    (r : Except Err (List ResponseWrapper)) (h : handle_req_list s id reqs = some (s', r))
    (hp : PoolNoTxn s.sp_exec_pool) : PoolNoTxn s'.sp_exec_pool := by
  cases reqs with
  | nil =>
    simp only [handle_req_list, Option.some.injEq, Prod.mk.injEq] at h
    obtain ⟨hs, _⟩ := h
    subst hs
    exact hp
  | cons q rest =>
    simp only [handle_req_list] at h
    split at h
    · exact absurd h (by simp)
    · rename_i s1 e heq
      simp only [Option.some.injEq, Prod.mk.injEq] at h
      obtain ⟨hs, _⟩ := h
      subst hs
      exact aux_handle_noTxn s id q _ _ heq hp
    · rename_i s1 resp heq
      split at h
      · exact absurd h (by simp)
      · rename_i s2 e heq2
        simp only [Option.some.injEq, Prod.mk.injEq] at h
        obtain ⟨hs, _⟩ := h
        subst hs
        exact aux_list_noTxn s1 id rest _ _ heq2 (aux_handle_noTxn s id q _ _ heq hp)
      · rename_i s2 resps heq2
        simp only [Option.some.injEq, Prod.mk.injEq] at h
        obtain ⟨hs, _⟩ := h
        subst hs
        exact aux_list_noTxn s1 id rest _ _ heq2 (aux_handle_noTxn s id q _ _ heq hp)

end

theorem sync_request_total_of_noTxn (s : State) (w : RequestWrapper)
    (next sub : Int) (hw : w.isTxn = false) :
    (sync_request s w next sub).isSome = true := by
  cases w with
  | range req => rfl
  | put req => rfl
  | deleteRange req => rfl
  | txn a b c => simp [RequestWrapper.isTxn] at hw

theorem sync_loop_total_of_noTxn (reqs : List RequestWrapper) :
    ∀ (s : State) (next sub : Int), (∀ w ∈ reqs, w.isTxn = false) →
      (sync_reqs_loop s reqs next sub).isSome = true := by
  induction reqs with
  | nil => intro s next sub _; rfl
  | cons q rest ih =>
    intro s next sub h
    have hq := h q (List.mem_cons_self _ _)
    have hrest : ∀ w ∈ rest, w.isTxn = false :=
      fun w hw => h w (List.mem_cons_of_mem _ hw)
    have h1 := sync_request_total_of_noTxn s q next sub hq
    rcases hr : sync_request s q next sub with _ | ⟨s1, events⟩
    · rw [hr] at h1
      simp at h1
    · have h2 := ih s1 next (sub + (events.length : Int)) hrest
      rcases hl : sync_reqs_loop s1 rest next (sub + (events.length : Int)) with _ | ⟨s2, evs2⟩
      · rw [hl] at h2
        simp at h2
      · simp only [sync_reqs_loop, hr, hl]
        rfl

theorem sync_requests_total_of_noTxn (s : State) (reqs : List RequestWrapper)
    (h : ∀ w ∈ reqs, w.isTxn = false) : (sync_requests s reqs).isSome = true := by
  have h1 := sync_loop_total_of_noTxn reqs s (s.revision + 1) 0 h
  rcases hl : sync_reqs_loop s reqs (s.revision + 1) 0 with _ | ⟨s1, all_events⟩
  · rw [hl] at h1
    simp at h1
  · simp only [sync_requests, hl]
    split <;> rfl

theorem pool_lookup_noTxn (p : Pool) (id : ProposeId) (reqs : List RequestWrapper)
    (hp : PoolNoTxn p) (h : Pool.lookup p id = some reqs) :
    ∀ w ∈ reqs, w.isTxn = false := by
  induction p with
  | nil => simp [Pool.lookup] at h
  | cons hd tl ih =>
    obtain ⟨i, l⟩ := hd
    simp only [Pool.lookup] at h
    split at h
    · simp only [Option.some.injEq] at h
      intro w hw
      exact hp (i, l) (List.mem_cons_self _ _) w (by rw [h]; exact hw)
    · exact ih (poolNoTxn_tail hp) h

/-- C7: speculative execution never buffers a `Txn` wrapper in the
speculative pool — a `Txn` only ensures an (empty) entry and its branch's
inner requests are appended individually, nested transactions included
(they are collapsed, not buffered) — so the requests the sync path drains
from such a pool contain no `Txn`, and `sync_requests` on them never reaches
the `Txn` panic branch. -/
theorem pool_never_contains_txn :
    (∀ (s : State) (id : ProposeId) (w : RequestWrapper) (s' : State)
        (r : Except Err ResponseWrapper),
        PoolNoTxn s.sp_exec_pool → handle_kv_requests s id w = some (s', r) →
          PoolNoTxn s'.sp_exec_pool) ∧
    (∀ (p : Pool) (id : ProposeId) (reqs : List RequestWrapper),
        PoolNoTxn p → Pool.lookup p id = some reqs → ∀ w ∈ reqs, w.isTxn = false) ∧
    (∀ (s : State) (reqs : List RequestWrapper), (∀ w ∈ reqs, w.isTxn = false) →
        (sync_requests s reqs).isSome = true) :=
  ⟨fun s id w s' r hp h => aux_handle_noTxn s id w s' r h hp,
    pool_lookup_noTxn,
    sync_requests_total_of_noTxn⟩

/-- Witness for C7: executing a transaction with one inner Put on the empty
store leaves a pool with no `Txn` wrapper, and syncing that buffer succeeds. -/
theorem pool_never_contains_txn_witness :
    PoolNoTxn ([] : Pool) ∧
    PoolNoTxn [(0, [RequestWrapper.put { key := [1], value := [2] }])] ∧
    (sync_requests { index := [], db := [], revision := 1, sp_exec_pool := [] }
        [RequestWrapper.put { key := [1], value := [2] }]).isSome = true := by
  have hempty : PoolNoTxn ([] : Pool) := by
    intro e he
    simp at he
  refine ⟨hempty, ?_, ?_⟩
  · exact pool_never_contains_txn.1
      { index := [], db := [], revision := 1, sp_exec_pool := [] } 0
      (RequestWrapper.txn [] [RequestWrapper.put { key := [1], value := [2] }] [])
      { index := [], db := [], revision := 1,
        sp_exec_pool := [(0, [RequestWrapper.put { key := [1], value := [2] }])] }
      (Except.ok (ResponseWrapper.txn true [ResponseWrapper.put { prev_kv := none }]))
      hempty rfl
  · exact pool_never_contains_txn.2.2 _ _
      (by
        intro w hw
        simp only [List.mem_singleton] at hw
        subst hw
        rfl)

theorem sync_put_request_revision (s : State) (req : PutRequest) (rev sub : Int) :
    (sync_put_request s req rev sub).1.revision = s.revision := by
  simp only [sync_put_request]
  split
  · rfl
  · rfl

theorem sync_delete_range_request_revision (s : State) (req : DeleteRangeRequest)
    (rev sub : Int) :
    (sync_delete_range_request s req rev sub).1.revision = s.revision :=
  rfl

theorem sync_request_revision (s : State) (w : RequestWrapper) (rev sub : Int)
    (s1 : State) (events : List Event) (h : sync_request s w rev sub = some (s1, events)) :
    s1.revision = s.revision := by
  cases w with
  | range req =>
    simp only [sync_request, Option.some.injEq, Prod.mk.injEq] at h
    rw [← h.1]
  | put req =>
    simp only [sync_request, Option.some.injEq] at h
    have h2 := sync_put_request_revision s req rev sub
    rw [h] at h2
    exact h2
  | deleteRange req =>
    simp only [sync_request, Option.some.injEq] at h
    have h2 := sync_delete_range_request_revision s req rev sub
    rw [h] at h2
    exact h2
  | txn a b c => simp [sync_request] at h

theorem sync_loop_revision (reqs : List RequestWrapper) :
    ∀ (s : State) (rev sub : Int) (s1 : State) (events : List Event),
      sync_reqs_loop s reqs rev sub = some (s1, events) → s1.revision = s.revision := by
  induction reqs with
  | nil =>
    intro s rev sub s1 events h
    simp only [sync_reqs_loop, Option.some.injEq, Prod.mk.injEq] at h
    rw [← h.1]
  | cons q rest ih =>
    intro s rev sub s1 events h
    simp only [sync_reqs_loop] at h
    split at h
    · exact absurd h (by simp)
    · rename_i sq evq heq
      split at h
      · exact absurd h (by simp)
      · rename_i s2 evs2 heq2
        simp only [Option.some.injEq, Prod.mk.injEq] at h
        obtain ⟨hs, _⟩ := h
        subst hs
        exact (ih sq rev _ s2 evs2 heq2).trans (sync_request_revision s q rev sub sq evq heq)

/-- C1: per committed proposal, `sync_requests` advances the revision counter
by exactly 1 iff the buffered requests produced at least one event, and
otherwise returns the unchanged current revision; consequently, after any
commit sequence the revision equals the initial revision plus the number of
committed proposals that produced at least one event. -/
theorem sync_revision_accounting :
    (∀ (s : State) (reqs : List RequestWrapper) (s' : State) (rev : Int)
        (evs : List Event),
        sync_requests s reqs = some (s', rev, some evs) →
          evs ≠ [] ∧ rev = s.revision + 1 ∧ s'.revision = s.revision + 1) ∧
    (∀ (s : State) (reqs : List RequestWrapper) (s' : State) (rev : Int),
        sync_requests s reqs = some (s', rev, none) →
          rev = s.revision ∧ s'.revision = s.revision) ∧
    (∀ (s : State) (ps : List (List RequestWrapper)) (s'' : State) (n : Nat),
        commit_seq s ps = some (s'', n) → s''.revision = s.revision + (n : Int)) := by
  have hsome : ∀ (s : State) (reqs : List RequestWrapper) (s' : State) (rev : Int)
      (evs : List Event), sync_requests s reqs = some (s', rev, some evs) →
        evs ≠ [] ∧ rev = s.revision + 1 ∧ s'.revision = s.revision + 1 := by
    intro s reqs s' rev evs h
    simp only [sync_requests] at h
    split at h
    · exact absurd h (by simp)
    · rename_i s1 all_events heq
      split at h
      · simp at h
      · rename_i hne
        simp only [Option.some.injEq, Prod.mk.injEq] at h
        obtain ⟨hs, hrev, hevs⟩ := h
        subst hs
        subst hevs
        exact ⟨by simpa using hne, hrev.symm, rfl⟩
  have hnone : ∀ (s : State) (reqs : List RequestWrapper) (s' : State) (rev : Int),
      sync_requests s reqs = some (s', rev, none) →
        rev = s.revision ∧ s'.revision = s.revision := by
    intro s reqs s' rev h
    simp only [sync_requests] at h
    split at h
    · exact absurd h (by simp)
    · rename_i s1 all_events heq
      split at h
      · simp only [Option.some.injEq, Prod.mk.injEq] at h
        obtain ⟨hs, hrev, -⟩ := h
        subst hs
        exact ⟨hrev.symm, sync_loop_revision reqs s _ 0 s1 all_events heq⟩
      · simp at h
  refine ⟨hsome, hnone, ?_⟩
  intro s ps
  induction ps generalizing s with
  | nil =>
    intro s'' n h
    simp only [commit_seq, Option.some.injEq, Prod.mk.injEq] at h
    obtain ⟨hs, hn⟩ := h
    subst hs
    subst hn
    simp
  | cons p rest ih =>
    intro s'' n h
    simp only [commit_seq] at h
    split at h
    · exact absurd h (by simp)
    · rename_i s' rev evOpt heq
      split at h
      · exact absurd h (by simp)
      · rename_i s3 m heq2
        simp only [Option.some.injEq, Prod.mk.injEq] at h
        obtain ⟨hs, hn⟩ := h
        subst hs
        subst hn
        have h3 := ih s' s3 m heq2
        cases evOpt with
        | none =>
          have h4 := (hnone s p s' rev heq).2
          rw [h3, h4]
          simp
        | some evs =>
          have h4 := (hsome s p s' rev evs heq).2.2
          rw [h3, h4]
          simp only [Option.isSome_some, if_true]
          push_cast
          ring

/-- Witness for C1: committing one proposal containing a single Put on the
empty store advances the revision from 1 to 2 = 1 + 1 (one proposal, one
event). -/
theorem sync_revision_accounting_witness :
    commit_seq { index := [], db := [], revision := 1, sp_exec_pool := [] }
        [[RequestWrapper.put { key := [97], value := [49] }]] =
      some ({ index := [([97], [{ create_revision := 2, main := 2, sub := 0, version := 1 }])],
              db := [({ main := 2, sub := 0 },
                      { key := [97], value := [49], create_revision := 2, mod_revision := 2,
                        version := 1, lease := 0 })],
              revision := 2, sp_exec_pool := [] }, 1) ∧
    ({ index := [([97], [{ create_revision := 2, main := 2, sub := 0, version := 1 }])],
       db := [({ main := 2, sub := 0 },
               { key := [97], value := [49], create_revision := 2, mod_revision := 2,
                 version := 1, lease := 0 })],
       revision := 2, sp_exec_pool := [] } : State).revision =
      ({ index := [], db := [], revision := 1, sp_exec_pool := [] } : State).revision +
        ((1 : Nat) : Int) :=
  ⟨rfl, sync_revision_accounting.2.2 _
    [[RequestWrapper.put { key := [97], value := [49] }]] _ 1 rfl⟩

theorem insert_or_update_main (idx : Index) (key : Bytes) (main sub : Int) :
    (Index.insert_or_update_revision idx key main sub).2.main = main := by
  simp only [Index.insert_or_update_revision]
  cases h : (Index.lookupKey idx key).getLast? with
  | none => rfl
  | some prior =>
    simp only []
    split <;> rfl

theorem sync_request_events_main (s : State) (w : RequestWrapper) (rev sub : Int)
    (s1 : State) (events : List Event) (h : sync_request s w rev sub = some (s1, events)) :
    ∀ e ∈ events, ∃ kv, e.kv = some kv ∧ kv.mod_revision = rev := by
  cases w with
  | range req =>
    simp only [sync_request, sync_range_request, Option.some.injEq, Prod.mk.injEq] at h
    intro e he
    rw [← h.2] at he
    simp at he
  | put req =>
    simp only [sync_request, Option.some.injEq] at h
    simp only [sync_put_request] at h
    split at h
    · intro e he
      injection h with h1 h2
      rw [← h2] at he
      simp at he
    · simp only [Prod.mk.injEq] at h
      intro e he
      rw [← h.2] at he
      simp only [List.mem_singleton] at he
      subst he
      refine ⟨_, rfl, ?_⟩
      split
      · split
        · simp [insert_or_update_main]
        · simp [insert_or_update_main]
      · simp [insert_or_update_main]
  | deleteRange req =>
    simp only [sync_request, Option.some.injEq] at h
    simp only [sync_delete_range_request, Prod.mk.injEq] at h
    intro e he
    rw [← h.2] at he
    simp only [new_deletion_events, List.mem_map] at he
    obtain ⟨prev, -, hev⟩ := he
    subst hev
    exact ⟨_, rfl, rfl⟩
  | txn a b c => simp [sync_request] at h

theorem sync_loop_events_main (reqs : List RequestWrapper) :
    ∀ (s : State) (rev sub : Int) (s' : State) (evs : List Event),
      sync_reqs_loop s reqs rev sub = some (s', evs) →
        ∀ e ∈ evs, ∃ kv, e.kv = some kv ∧ kv.mod_revision = rev := by
  induction reqs with
  | nil =>
    intro s rev sub s' evs h
    simp only [sync_reqs_loop, Option.some.injEq, Prod.mk.injEq] at h
    intro e he
    rw [← h.2] at he
    simp at he
  | cons q rest ih =>
    intro s rev sub s' evs h
    simp only [sync_reqs_loop] at h
    split at h
    · exact absurd h (by simp)
    · rename_i s1 events heq
      split at h
      · exact absurd h (by simp)
      · rename_i s2 evs2 heq2
        simp only [Option.some.injEq, Prod.mk.injEq] at h
        intro e he
        rw [← h.2] at he
        rcases List.mem_append.mp he with he | he
        · exact sync_request_events_main s q rev sub s1 events heq e he
        · exact ih s1 rev _ s2 evs2 heq2 e he

theorem sync_loop_append (xs : List RequestWrapper) :
    ∀ (s : State) (ys : List RequestWrapper) (next sub : Int),
      sync_reqs_loop s (xs ++ ys) next sub =
        match sync_reqs_loop s xs next sub with
        | none => none
        | some (s1, e1) =>
            match sync_reqs_loop s1 ys next (sub + (e1.length : Int)) with
            | none => none
            | some (s2, e2) => some (s2, e1 ++ e2) := by
  induction xs with
  | nil =>
    intro s ys next sub
    simp only [List.nil_append, sync_reqs_loop, List.length_nil, Int.Nat.cast_ofNat_Int,
      Int.add_zero]
    cases hm : sync_reqs_loop s ys next sub with
    | none => rfl
    | some pair =>
      obtain ⟨s2, e2⟩ := pair
      simp
  | cons q rest ih =>
    intro s ys next sub
    simp only [List.cons_append, sync_reqs_loop]
    cases hq : sync_request s q next sub with
    | none => rfl
    | some pair =>
      obtain ⟨s1, ev⟩ := pair
      simp only [List.append_eq]
      rw [ih]
      cases h1 : sync_reqs_loop s1 rest next (sub + (ev.length : Int)) with
      | none => rfl
      | some pair2 =>
        obtain ⟨t, e⟩ := pair2
        simp only []
        have harith : sub + (ev.length : Int) + (e.length : Int) =
            sub + (((ev ++ e).length : Nat) : Int) := by
          push_cast [List.length_append]
          ring
        rw [harith]
        cases h2 : sync_reqs_loop t ys next (sub + (((ev ++ e).length : Nat) : Int)) with
        | none => rfl
        | some pair3 =>
          obtain ⟨s2, e2⟩ := pair3
          simp [List.append_assoc]

/-- C6: within the commit of one proposal the buffered requests are applied
in append order — syncing `xs ++ ys` first syncs `xs`, then syncs `ys` with
the sub-revision advanced by the number of events `xs` emitted — a Range
request emits no events and so does not advance the sub-revision, every
emitted event's kv carries the proposal's single main revision, and
`sync_requests` starts the sub-revision at 0. -/
theorem sync_order_sub_revision :
    (∀ (xs : List RequestWrapper) (s : State) (ys : List RequestWrapper) (next sub : Int),
        sync_reqs_loop s (xs ++ ys) next sub =
          match sync_reqs_loop s xs next sub with
          | none => none
          | some (s1, e1) =>
              match sync_reqs_loop s1 ys next (sub + (e1.length : Int)) with
              | none => none
              | some (s2, e2) => some (s2, e1 ++ e2)) ∧
    (∀ (s : State) (req : RangeRequest) (next sub : Int),
        sync_request s (RequestWrapper.range req) next sub = some (s, [])) ∧
    (∀ (reqs : List RequestWrapper) (s : State) (rev sub : Int) (s' : State)
        (evs : List Event),
        sync_reqs_loop s reqs rev sub = some (s', evs) →
          ∀ e ∈ evs, ∃ kv, e.kv = some kv ∧ kv.mod_revision = rev) ∧
    (∀ (s : State) (reqs : List RequestWrapper),
        sync_requests s reqs =
          match sync_reqs_loop s reqs (s.revision + 1) 0 with
          | none => none
          | some (s1, all_events) =>
              if all_events.isEmpty then some (s1, s.revision, none)
              else some ({ s1 with revision := s.revision + 1 }, s.revision + 1,
                some all_events)) :=
  ⟨sync_loop_append, fun _ _ _ _ => rfl,
    fun reqs s rev sub s' evs h => sync_loop_events_main reqs s rev sub s' evs h,
    fun _ _ => rfl⟩

/-- Witness for C6: the single event of a concrete committed Put carries the
proposal's main revision 2. -/
theorem sync_order_sub_revision_witness :
    ∃ kv, ({ type := EventType.put,
             kv := some { key := [97], value := [49], create_revision := 2,
                          mod_revision := 2, version := 1, lease := 0 },
             prev_kv := none } : Event).kv = some kv ∧ kv.mod_revision = 2 :=
  sync_order_sub_revision.2.2.1 [RequestWrapper.put { key := [97], value := [49] }]
    { index := [], db := [], revision := 1, sp_exec_pool := [] } 2 0
    { index := [([97], [{ create_revision := 2, main := 2, sub := 0, version := 1 }])],
      db := [({ main := 2, sub := 0 },
              { key := [97], value := [49], create_revision := 2, mod_revision := 2,
                version := 1, lease := 0 })],
      revision := 1, sp_exec_pool := [] }
    [{ type := EventType.put,
       kv := some { key := [97], value := [49], create_revision := 2,
                    mod_revision := 2, version := 1, lease := 0 },
       prev_kv := none }]
    rfl
    { type := EventType.put,
      kv := some { key := [97], value := [49], create_revision := 2,
                   mod_revision := 2, version := 1, lease := 0 },
      prev_kv := none }
    (by simp)

/-- C5: a `Compare` with target `Lease` is evaluated between the kv's
`mod_revision` and the lease operand — not between the kv's `lease` field and
the operand (changing `kv.lease` cannot change the outcome). -/
theorem lease_compare_uses_mod_revision (cmp : Compare) (kv : KeyValue) (l : Int)
    (h : cmp.target = CompareTarget.lease) :
    compare_result_of cmp kv =
      compare_i64 kv.mod_revision
        (match cmp.target_union with
          | some (TargetUnion.lease v) => v
          | _ => 0) ∧
    compare_kv cmp { kv with lease := l } = compare_kv cmp kv := by
  constructor
  · simp only [compare_result_of, h]
  · simp only [compare_kv, compare_result_of, h]

/-- Witness for C5: with lease operand 5, a kv whose `mod_revision` is 5 but
whose `lease` is 7 compares Equal, and changing the lease to 99 changes
nothing. -/
theorem lease_compare_uses_mod_revision_witness :
    ({ target := CompareTarget.lease, target_union := some (TargetUnion.lease 5) } :
        Compare).target = CompareTarget.lease ∧
    compare_result_of
      { target := CompareTarget.lease, target_union := some (TargetUnion.lease 5) }
      { mod_revision := 5, lease := 7 } = CompareResult.equal ∧
    compare_kv { target := CompareTarget.lease, target_union := some (TargetUnion.lease 5) }
        { mod_revision := 5, lease := 99 } =
      compare_kv { target := CompareTarget.lease, target_union := some (TargetUnion.lease 5) }
        { mod_revision := 5, lease := 7 } := by
  refine ⟨rfl, ?_, ?_⟩
  · exact ((lease_compare_uses_mod_revision _ { mod_revision := 5, lease := 7 } 99
      rfl).1).trans rfl
  · exact (lease_compare_uses_mod_revision _ { mod_revision := 5, lease := 7 } 99 rfl).2

/-- Counterexample for C4: a `Compare` whose `target` field is `Value` but
whose `target_union` operand is missing evaluates to `true` on an empty
range (the code keys the empty-range exception on the operand, not on the
target), where the claim says the predicate is false whenever the target is
`Value`. -/
theorem empty_range_value_target_cex :
    ({ target := CompareTarget.value, result := CompareResult.equal, key := [1],
        range_end := [], target_union := none } : Compare).target = CompareTarget.value ∧
    get_range { index := [], db := [], revision := 1, sp_exec_pool := [] } [1] [] 0 = [] ∧
    check_compare { index := [], db := [], revision := 1, sp_exec_pool := [] }
        { target := CompareTarget.value, result := CompareResult.equal, key := [1],
          range_end := [], target_union := none } = true :=
  ⟨rfl, rfl, rfl⟩

/-- C4 (amended): on an empty range, `check_compare` is false iff the
Compare's `target_union` operand is a `Value`; otherwise (in particular for
well-formed Version/Create/Mod/Lease compares) the predicate is evaluated
against a default `KeyValue`. -/
theorem check_compare_empty_range (s : State) (cmp : Compare)
    (h : get_range s cmp.key cmp.range_end 0 = []) :
    check_compare s cmp =
      if is_value_union cmp.target_union then false
      else compare_kv cmp { : KeyValue } := by
  simp [check_compare, h]

/-- Witness for C4: a Version compare with operand 0 on an empty range
evaluates against the default kv (and is `true` for result Equal). -/
theorem check_compare_empty_range_witness :
    get_range { index := [], db := [], revision := 1, sp_exec_pool := [] }
        ({ target := CompareTarget.version, key := [2],
            target_union := some (TargetUnion.version 0) } : Compare).key
        ({ target := CompareTarget.version, key := [2],
            target_union := some (TargetUnion.version 0) } : Compare).range_end 0 = [] ∧
    check_compare { index := [], db := [], revision := 1, sp_exec_pool := [] }
        { target := CompareTarget.version, key := [2],
          target_union := some (TargetUnion.version 0) } =
      if is_value_union (some (TargetUnion.version 0)) then false
      else compare_kv
        { target := CompareTarget.version, key := [2],
          target_union := some (TargetUnion.version 0) }
        { : KeyValue } :=
  ⟨rfl, check_compare_empty_range _ _ rfl⟩

/-- C9: committing a DeleteRange produces exactly one Delete event per
pre-deletion kv returned by `mark_deletions`; each event's kv has the deleted
key, `mod_revision` equal to the commit revision and every other field
default, with `prev_kv` the pre-deletion kv. -/
theorem delete_range_events_shape (s : State) (req : DeleteRangeRequest)
    (revision sub_revision : Int) :
    (sync_delete_range_request s req revision sub_revision).2 =
      (DB.mark_deletions s.db
          (Index.delete s.index req.key req.range_end revision sub_revision).2).2.map
        (fun prev =>
          { type := EventType.delete,
            kv := some { key := prev.key, value := [], create_revision := 0,
                         mod_revision := revision, version := 0, lease := 0 },
            prev_kv := some prev }) :=
  rfl

/-- C10: speculative Put panics if the point lookup returns more than one kv
(`put_prev_of` yields `none`), and that branch is unreachable: a point lookup
through the index returns at most one kv, so `handle_put_request` never
panics. -/
theorem put_point_lookup_panic :
    (∀ kvs : List KeyValue, 2 ≤ kvs.length → put_prev_of kvs = none) ∧
    (∀ (s : State) (key : Bytes) (rev : Int), (get_range s key [] rev).length ≤ 1) ∧
    (∀ (s : State) (req : PutRequest), (handle_put_request s req).isSome = true) := by
  have hone : ∀ (s : State) (key : Bytes) (rev : Int),
      (get_range s key [] rev).length ≤ 1 := by
    intro s key rev
    unfold get_range Index.get
    simp only [beq_self_eq_true, if_true]
    cases Index.getOne s.index key rev with
    | none => simp [DB.get_values]
    | some c =>
      simp only [DB.get_values, List.filterMap]
      cases DB.lookup s.db c <;> simp
  refine ⟨?_, hone, ?_⟩
  · intro kvs h
    match kvs with
    | [] => simp at h
    | [kv] => simp at h
    | a :: b :: t => rfl
  · intro s req
    have hl := hone s req.key 0
    unfold handle_put_request
    rcases hg : get_range s req.key [] 0 with _ | ⟨a, _ | ⟨b, t⟩⟩
    · simp only [put_prev_of]
      split <;> rfl
    · simp only [put_prev_of]
      split <;> rfl
    · rw [hg] at hl
      simp at hl

/-- Witness for C10: a two-element lookup result makes `put_prev_of` panic. -/
theorem put_point_lookup_panic_witness :
    2 ≤ ([{ : KeyValue }, { : KeyValue }] : List KeyValue).length ∧
    put_prev_of [{ : KeyValue }, { : KeyValue }] = none :=
  ⟨by simp, put_point_lookup_panic.1 [{ : KeyValue }, { : KeyValue }] (by simp)⟩

/-- C8: speculative Put reads the previous kv at the latest revision (the
head of the point lookup) and fails with `InvalidCommand` iff there is no
previous value and `ignore_lease` or `ignore_value` is set; on success the
response carries `prev_kv` exactly when the request's `prev_kv` flag is set. -/
theorem handle_put_semantics (s : State) (req : PutRequest) :
    (handle_put_request s req = some (Except.error (Err.invalidCommand ignoreMsg)) ↔
      ((get_range s req.key [] 0).head? = none ∧
        (req.ignore_lease || req.ignore_value) = true)) ∧
    (∀ resp, handle_put_request s req = some (Except.ok resp) →
      resp.prev_kv = if req.prev_kv then (get_range s req.key [] 0).head? else none) := by
  rcases hg : get_range s req.key [] 0 with _ | ⟨a, _ | ⟨b, t⟩⟩
  · constructor
    · simp only [handle_put_request, hg, put_prev_of, List.head?_nil]
      cases hf : (req.ignore_lease || req.ignore_value) <;> simp [hf]
    · intro resp h
      simp only [handle_put_request, hg, put_prev_of] at h
      cases hf : (req.ignore_lease || req.ignore_value) <;> rw [hf] at h <;> simp at h
      · rw [← h]
        cases req.prev_kv <;> simp
  · constructor
    · simp only [handle_put_request, hg, put_prev_of]
      simp
    · intro resp h
      simp only [handle_put_request, hg, put_prev_of] at h
      simp at h
      rw [← h]
      cases req.prev_kv <;> simp
  · constructor
    · simp only [handle_put_request, hg, put_prev_of]
      simp
    · intro resp h
      simp only [handle_put_request, hg, put_prev_of] at h
      exact absurd h (by simp)

/-- Witness for C8: on the empty store a Put with `ignore_value` fails with
`InvalidCommand`, and a plain Put with `prev_kv = true` succeeds carrying no
previous kv. -/
theorem handle_put_semantics_witness :
    handle_put_request { index := [], db := [], revision := 1, sp_exec_pool := [] }
        { key := [1], ignore_value := true } =
      some (Except.error (Err.invalidCommand ignoreMsg)) ∧
    ({ prev_kv := none } : PutResponse).prev_kv =
      if ({ key := [1], prev_kv := true } : PutRequest).prev_kv then
        (get_range { index := [], db := [], revision := 1, sp_exec_pool := [] }
          ({ key := [1], prev_kv := true } : PutRequest).key [] 0).head?
      else none :=
  ⟨(handle_put_semantics { index := [], db := [], revision := 1, sp_exec_pool := [] }
      { key := [1], ignore_value := true }).1.mpr ⟨rfl, rfl⟩,
    (handle_put_semantics { index := [], db := [], revision := 1, sp_exec_pool := [] }
      { key := [1], prev_kv := true }).2 { prev_kv := none } rfl⟩

/-- Counterexample for C3, refuting both halves of the claim.  First: a Put
with `ignore_value` whose lookup is empty returns `InvalidCommand`, yet the
request IS buffered in the proposal's pool entry (registration happens before
the handler runs), where the claim says nothing is buffered.  Second:
committing is not a no-op for that request either — in a proposal buffering
`[Put(k,v), Put(k, ignore_value)]` the second Put errors at execute time
(nothing is committed for `k` yet) but applies at sync time, because the
first Put of the same proposal creates the key before the re-check runs: the
commit emits two events, not one. -/
theorem invalid_put_buffered_cex :
    (handle_kv_requests
        { index := [], db := [], revision := 1,
          sp_exec_pool := [(0, [RequestWrapper.put { key := [1], value := [2] }])] } 0
        (RequestWrapper.put { key := [1], ignore_value := true })).map Prod.snd =
      some (Except.error (Err.invalidCommand ignoreMsg)) ∧
    (handle_kv_requests
        { index := [], db := [], revision := 1,
          sp_exec_pool := [(0, [RequestWrapper.put { key := [1], value := [2] }])] } 0
        (RequestWrapper.put { key := [1], ignore_value := true })).map
        (fun p => p.1.sp_exec_pool) =
      some [(0, [RequestWrapper.put { key := [1], value := [2] },
                 RequestWrapper.put { key := [1], ignore_value := true }])] ∧
    ((sync_requests { index := [], db := [], revision := 1, sp_exec_pool := [] }
        [RequestWrapper.put { key := [1], value := [2] },
         RequestWrapper.put { key := [1], ignore_value := true }]).bind
        (fun p => p.2.2)).map List.length = some 2 :=
  ⟨rfl, rfl, rfl⟩

/-- C3 (amended): when speculative execution of a Put returns
`InvalidCommand` (no previous value with `ignore_lease`/`ignore_value` set),
the request is still appended to the proposal's pool entry, and at commit
`sync_put_request` re-checks the precondition against the sync-time state:
if the point lookup is still empty the request is a no-op (no events, state
unchanged), but if a previous value exists by then — e.g. created by an
earlier request of the same proposal — the errored request applies after all
and emits one event. -/
theorem invalid_put_sync_recheck (s s' : State) (id : ProposeId) (req : PutRequest)
    (rev sub : Int)
    (h1 : get_range s req.key [] 0 = [])
    (h2 : (req.ignore_lease || req.ignore_value) = true) :
    handle_kv_requests s id (RequestWrapper.put req) =
      some ({ s with sp_exec_pool := Pool.append s.sp_exec_pool id (RequestWrapper.put req) },
            Except.error (Err.invalidCommand ignoreMsg)) ∧
    (get_range s' req.key [] 0 = [] → sync_put_request s' req rev sub = (s', [])) ∧
    (∀ prev rest, get_range s' req.key [] 0 = prev :: rest →
        (sync_put_request s' req rev sub).2.length = 1) := by
  refine ⟨?_, ?_, ?_⟩
  · have hx : get_range
        { s with sp_exec_pool := Pool.append s.sp_exec_pool id (RequestWrapper.put req) }
        req.key [] 0 = ([] : List KeyValue) := h1
    simp only [handle_kv_requests, handle_put_request, hx, put_prev_of]
    simp [h2]
  · intro h3
    simp only [sync_put_request, h3]
    simp [h2]
  · intro prev rest h3
    simp only [sync_put_request, h3]
    simp

/-- Witness for C3: with a concrete `ignore_value` Put, execution on the
empty store errors and buffers the request; syncing against a still-empty
store is a no-op, while syncing against a store where the key was created at
revision 2 emits one event. -/
theorem invalid_put_sync_recheck_witness :
    get_range { index := [], db := [], revision := 1, sp_exec_pool := [] } [1] [] 0 = [] ∧
    (({ key := [1], ignore_value := true } : PutRequest).ignore_lease ||
      ({ key := [1], ignore_value := true } : PutRequest).ignore_value) = true ∧
    handle_kv_requests { index := [], db := [], revision := 1, sp_exec_pool := [] } 0
        (RequestWrapper.put { key := [1], ignore_value := true }) =
      some ({ index := [], db := [], revision := 1,
              sp_exec_pool := Pool.append [] 0
                (RequestWrapper.put { key := [1], ignore_value := true }) },
            Except.error (Err.invalidCommand ignoreMsg)) ∧
    sync_put_request { index := [], db := [], revision := 1, sp_exec_pool := [] }
        { key := [1], ignore_value := true } 5 0 =
      ({ index := [], db := [], revision := 1, sp_exec_pool := [] }, []) ∧
    (sync_put_request
        { index := [([1], [{ create_revision := 2, main := 2, sub := 0, version := 1 }])],
          db := [({ main := 2, sub := 0 },
                  { key := [1], value := [2], create_revision := 2, mod_revision := 2,
                    version := 1, lease := 0 })],
          revision := 2, sp_exec_pool := [] }
        { key := [1], ignore_value := true } 3 0).2.length = 1 := by
  have ha := invalid_put_sync_recheck
    { index := [], db := [], revision := 1, sp_exec_pool := [] }
    { index := [], db := [], revision := 1, sp_exec_pool := [] } 0
    { key := [1], ignore_value := true } 5 0 rfl rfl
  have hb := invalid_put_sync_recheck
    { index := [], db := [], revision := 1, sp_exec_pool := [] }
    { index := [([1], [{ create_revision := 2, main := 2, sub := 0, version := 1 }])],
      db := [({ main := 2, sub := 0 },
              { key := [1], value := [2], create_revision := 2, mod_revision := 2,
                version := 1, lease := 0 })],
      revision := 2, sp_exec_pool := [] } 0
    { key := [1], ignore_value := true } 3 0 rfl rfl
  exact ⟨rfl, rfl, ha.1, ha.2.1 rfl,
    hb.2.2 { key := [1], value := [2], create_revision := 2, mod_revision := 2,
             version := 1, lease := 0 } [] rfl⟩
